import Mathlib

/-!
Verification of the hexagonal board demo (src/src/app/page.tsx together with
the two earlier drafts kept in the repository).  The TypeScript functions are
shallowly embedded as Lean definitions: integer loop indices become integer
ranges, the mutable planet deck becomes explicit state passing, randomness
becomes an arbitrary choice function, and canvas drawing becomes a trace of
drawing commands.
-/

/-- Axial hex coordinate, mirroring the Hex interface: column q, row r and the
derived coordinate s. -/
structure Hex where
  q : Int
  r : Int
  s : Int
deriving DecidableEq, Repr

/-- Model of createHex: builds a Hex whose s field is derived as -q - r. -/
def createHex (q r : Int) : Hex :=
  ⟨q, r, -q - r⟩

/-- Inclusive ascending range of integers lo..hi as a list (empty when
hi < lo); models a for-loop running an integer index from lo up to hi. -/
def intRange (lo hi : Int) : List Int :=
  (List.range (hi + 1 - lo).toNat).map (fun i : Nat => lo + (i : Int))

/-- Model of generateHexGrid: for q from -radius to radius, and r from
max(-radius, -q - radius) to min(radius, -q + radius), push createHex q r. -/
def generateHexGrid (radius : Int) : List Hex :=
  (intRange (-radius) radius).flatMap (fun q =>
    (intRange (max (-radius) (-q - radius)) (min radius (-q + radius))).map
      (fun r => createHex q r))

/-- Length of the inner row of the grid at column q, as the loop produces it. -/
def rowLen (radius q : Int) : Nat :=
  (min radius (-q + radius) + 1 - max (-radius) (-q - radius)).toNat

/-- Planet record from the catalog: a name plus two numeric stats. -/
structure Planet where
  name : String
  resources : Int
  influence : Int
deriving DecidableEq, Repr

/-- Board tile, as built by the object spread of a planet record plus a hex.
The planet is an Option: splicing from an exhausted deck yields undefined in
the source, and spreading undefined produces a tile carrying only the hex. -/
structure Tile where
  hex : Hex
  planet : Option Planet
deriving DecidableEq, Repr

/-- Test performed by Home on each hex: hex.q === 0 && hex.r === 0. -/
def isCenter (h : Hex) : Bool :=
  h.q == 0 && h.r == 0

/-- Swap of two positions of a list, modelling the destructuring swap of
copy[i] and copy[j]; positions out of range leave the list unchanged (the
shuffle loop only ever uses in-range positions). -/
def listSwap (l : List α) (i j : Nat) : List α :=
  match l[i]?, l[j]? with
  | some a, some b => (l.set i b).set j a
  | _, _ => l

/-- Downward Fisher-Yates loop of shuffle: while the counter i is positive,
swap position i with position rand i % (i + 1), then decrement.  The choice
function rand models Math.random scaled by i + 1 and floored, which always
lands in 0..i. -/
def shuffleFrom (rand : Nat → Nat) (copy : List α) : Nat → List α
  | 0 => copy
  | i + 1 => shuffleFrom rand (listSwap copy (i + 1) (rand (i + 1) % (i + 2))) i

/-- Model of shuffle: copies the array and runs the Fisher-Yates loop from
index length - 1 down to 1. -/
def shuffle (rand : Nat → Nat) (l : List α) : List α :=
  shuffleFrom rand l (l.length - 1)

/-- Model of the tile assignment loop in Home: walk the hexes in order; the
center hex receives the fixed mecatol record; every other hex splices the
position rand k % deck.length out of the remaining deck (none when the deck
is exhausted, exactly as splice on an empty array yields undefined).  The
counter k indexes successive Math.random calls; the final deck is returned
alongside the tiles to expose the consumption of the catalog. -/
def assignTiles (rand : Nat → Nat) (mec : Planet) :
    List Hex → Nat → List Planet → List Tile × List Planet
  | [], _, deck => ([], deck)
  | h :: hs, k, deck =>
    if isCenter h then
      ((⟨h, some mec⟩ : Tile) :: (assignTiles rand mec hs k deck).1,
        (assignTiles rand mec hs k deck).2)
    else
      ((⟨h, deck[rand k % deck.length]?⟩ : Tile) ::
          (assignTiles rand mec hs (k + 1)
            (deck.eraseIdx (rand k % deck.length))).1,
        (assignTiles rand mec hs (k + 1)
          (deck.eraseIdx (rand k % deck.length))).2)

/-- Model of the Home component setup: generate the radius-3 grid, shuffle
the planet catalog, then assign tiles from the shuffled deck. -/
def homeTiles (randShuffle randDraw : Nat → Nat) (catalog : List Planet)
    (mec : Planet) : List Tile :=
  (assignTiles randDraw mec (generateHexGrid 3) 0 (shuffle randShuffle catalog)).1

/-- Concrete catalog of 36 pairwise distinct planet records, used to witness
the setup theorems on an explicit input. -/
def witnessCatalog : List Planet :=
  (List.range 36).map (fun i => ⟨"", (i : Int), 0⟩)

/-- Model of hexToPixel: x = size * (3/2) * q and
y = size * sqrt 3 * (r + q / 2), over the reals. -/
noncomputable def hexToPixel (h : Hex) (size : Real) : Real × Real :=
  (size * (3 / 2) * (h.q : Real),
    size * Real.sqrt 3 * ((h.r : Real) + (h.q : Real) / 2))

/-- Drawing command recorded against the 2D context.  A hexagon command
abstracts the beginPath/lineTo/closePath/fill/stroke sequence of drawHex at
a given center and size; a text command records one fillText call. -/
inductive RenderCmd where
  | clear (w h : Real)
  | hexagon (cx cy size : Real)
  | text (s : String) (x y : Real)

/-- Truthiness of tile.name as JavaScript evaluates it: undefined (no planet
record was spread into the tile) and the empty string are falsy. -/
def nameTruthy (t : Tile) : Bool :=
  match t.planet with
  | none => false
  | some p => p.name != ""

/-- Field reads on a tile; the defaults stand for undefined and are only
ever drawn when nameTruthy holds, hence when a record is present. -/
def nameOf (t : Tile) : String :=
  match t.planet with
  | some p => p.name
  | none => ""

/-- Resources field of a tile, defaulting like nameOf. -/
def resourcesOf (t : Tile) : Int :=
  match t.planet with
  | some p => p.resources
  | none => 0

/-- Influence field of a tile, defaulting like nameOf. -/
def influenceOf (t : Tile) : Int :=
  match t.planet with
  | some p => p.influence
  | none => 0

/-- Commands renderGrid emits for one tile: project the hex, recenter by the
half canvas plus the pan offset, draw the hexagon, and only when the name is
truthy draw the name and the two stat numbers. -/
noncomputable def tileCmds (size : Real) (canvas offset : Real × Real)
    (t : Tile) : List RenderCmd :=
  RenderCmd.hexagon ((hexToPixel t.hex size).1 + canvas.1 / 2 + offset.1)
      ((hexToPixel t.hex size).2 + canvas.2 / 2 + offset.2) size ::
    (if nameTruthy t then
      [RenderCmd.text (nameOf t)
        ((hexToPixel t.hex size).1 + canvas.1 / 2 + offset.1)
        ((hexToPixel t.hex size).2 + canvas.2 / 2 + offset.2
          + (size / 2 + size / 7.5)),
       RenderCmd.text (toString (resourcesOf t))
        ((hexToPixel t.hex size).1 + canvas.1 / 2 + offset.1 - 35)
        ((hexToPixel t.hex size).2 + canvas.2 / 2 + offset.2
          + (size / 3 + 10) - 10),
       RenderCmd.text (toString (influenceOf t))
        ((hexToPixel t.hex size).1 + canvas.1 / 2 + offset.1 - 30)
        ((hexToPixel t.hex size).2 + canvas.2 / 2 + offset.2
          + (size / 3 + 10))]
    else [])

/-- Model of renderGrid: clear the canvas, then emit each tile's commands in
order. -/
noncomputable def renderGrid (tiles : List Tile) (size : Real)
    (canvas offset : Real × Real) : List RenderCmd :=
  RenderCmd.clear canvas.1 canvas.2 :: tiles.flatMap (tileCmds size canvas offset)

/-- Model of handleWheel: a wheel event with vertical delta deltaY moves the
zoom by plus or minus 0.1 times the zoom speed and clamps to [0.5, 2]. -/
def handleWheel (zoomSpeed deltaY zoom : Rat) : Rat :=
  min (max (zoom + (if deltaY < 0 then (0.1 : Rat) else -(0.1 : Rat)) * zoomSpeed)
    0.5) 2

/-- Zoom factor after a sequence of wheel events starting from the initial
factor 1. -/
def zoomAfter (zoomSpeed : Rat) (events : List Rat) : Rat :=
  events.foldl (fun z d => handleWheel zoomSpeed d z) 1

/-- Interaction state owned by the HexGrid component: accumulated pan offset,
the dragging flag, and the last recorded mouse position. -/
structure PanState where
  offsetX : Rat
  offsetY : Rat
  dragging : Bool
  lastX : Rat
  lastY : Rat
deriving DecidableEq

/-- Pointer events the mouse handlers receive; mouseleave triggers the same
handler as mouseup and is covered by the up event. -/
inductive MouseEv where
  | down (x y : Rat)
  | move (x y : Rat)
  | up

/-- Model of handleMouseDown, handleMouseMove and handleMouseUp: press starts
dragging and records the position; move, only while dragging, adds the delta
from the last position scaled by the pan speed and re-records the position;
release stops dragging. -/
def handleMouse (panSpeed : Rat) (st : PanState) : MouseEv → PanState
  | .down x y => { st with dragging := true, lastX := x, lastY := y }
  | .move x y =>
    if st.dragging then
      { offsetX := st.offsetX + (x - st.lastX) * panSpeed,
        offsetY := st.offsetY + (y - st.lastY) * panSpeed,
        dragging := st.dragging, lastX := x, lastY := y }
    else st
  | .up => { st with dragging := false }

/-- Sum of the per-move horizontal deltas, each scaled by the pan speed, for
a drag whose baseline starts at px. -/
def dragDeltaX (panSpeed : Rat) : Rat → List (Rat × Rat) → Rat
  | _, [] => 0
  | px, p :: ps => (p.1 - px) * panSpeed + dragDeltaX panSpeed p.1 ps

/-- Sum of the per-move vertical deltas, each scaled by the pan speed. -/
def dragDeltaY (panSpeed : Rat) : Rat → List (Rat × Rat) → Rat
  | _, [] => 0
  | py, p :: ps => (p.2 - py) * panSpeed + dragDeltaY panSpeed p.2 ps

/-- Host state seen by the component: pending animation-frame request ids,
the next id the scheduler will grant, and the registered event listeners. -/
structure HostState where
  pending : List Nat
  nextId : Nat
  listeners : List String
deriving DecidableEq

/-- requestAnimationFrame: grants a fresh id, records the request as pending,
and returns the id to the caller. -/
def rafRequest (s : HostState) : Nat × HostState :=
  (s.nextId, { s with pending := s.pending ++ [s.nextId], nextId := s.nextId + 1 })

/-- cancelAnimationFrame: removes the request with the given id, if any. -/
def rafCancel (id : Nat) (s : HostState) : HostState :=
  { s with pending := s.pending.filter (fun i => i != id) }

/-- canvas.addEventListener for one event name. -/
def addListener (n : String) (s : HostState) : HostState :=
  { s with listeners := s.listeners ++ [n] }

/-- canvas.removeEventListener for one event name. -/
def removeListener (n : String) (s : HostState) : HostState :=
  { s with listeners := s.listeners.erase n }

/-- Event names the HexGrid effect registers on the canvas. -/
def eventNames : List String :=
  ["wheel", "mousedown", "mousemove", "mouseup", "mouseleave"]

/-- page.tsx mount: add the five listeners, request the first frame and store
its id in frameRef. -/
def mountMain (s : HostState) : Nat × HostState :=
  rafRequest (eventNames.foldl (fun s n => addListener n s) s)

/-- page.tsx render tick: the pending request fires (the scheduler retires
it), render runs and requests the next frame, storing the new id in
frameRef. -/
def tickMain (frameRef : Nat) (s : HostState) : Nat × HostState :=
  rafRequest (rafCancel frameRef s)

/-- k successive render ticks threading the frameRef. -/
def ticksMain (k : Nat) (frameRef : Nat) (s : HostState) : Nat × HostState :=
  match k with
  | 0 => (frameRef, s)
  | k + 1 => ticksMain k (tickMain frameRef s).1 (tickMain frameRef s).2

/-- page.tsx effect cleanup: cancelAnimationFrame(frameRef.current), then
remove the five listeners. -/
def teardownMain (frameRef : Nat) (s : HostState) : HostState :=
  eventNames.foldl (fun s n => removeListener n s) (rafCancel frameRef s)

/-- Full page.tsx lifecycle: mount on a fresh host, k render ticks, then the
effect cleanup. -/
def runMain (k : Nat) : HostState :=
  teardownMain (ticksMain k (mountMain ⟨[], 0, []⟩).1 (mountMain ⟨[], 0, []⟩).2).1
    (ticksMain k (mountMain ⟨[], 0, []⟩).1 (mountMain ⟨[], 0, []⟩).2).2

/-- part_000 mount: same five listeners and first frame request, but the
granted id is discarded; the component keeps no frameRef. -/
def mountPart000 (s : HostState) : HostState :=
  (rafRequest (eventNames.foldl (fun s n => addListener n s) s)).2

/-- part_000 effect cleanup: cancelAnimationFrame is passed the render
callback, not a request id; browser ids are positive, so the call matches no
pending request and cancels nothing.  The handle is modelled by 0, a value
the scheduler (which starts granting at 1) never issues. -/
def teardownPart000 (s : HostState) : HostState :=
  eventNames.foldl (fun s n => removeListener n s) (rafCancel 0 s)

/-- part_000 lifecycle: mount on a fresh host (ids granted from 1), then the
effect cleanup with no intervening tick. -/
def runPart000 : HostState :=
  teardownPart000 (mountPart000 ⟨[], 1, []⟩)

lemma intRange_length (lo hi : Int) :
    (intRange lo hi).length = (hi + 1 - lo).toNat := by
  simp [intRange]

lemma mem_intRange {lo hi a : Int} : a ∈ intRange lo hi ↔ lo ≤ a ∧ a ≤ hi := by
  simp only [intRange, List.mem_map, List.mem_range]
  constructor
  · rintro ⟨i, hi', rfl⟩
    omega
  · rintro ⟨h1, h2⟩
    exact ⟨(a - lo).toNat, by omega, by omega⟩

lemma intRange_nodup (lo hi : Int) : (intRange lo hi).Nodup := by
  refine List.Nodup.map ?_ (List.nodup_range _)
  intro a b hab
  have hab' : lo + (a : Int) = lo + (b : Int) := hab
  omega

lemma rowLen_eq (R : Nat) (q : Int) (h1 : -(R : Int) ≤ q) (h2 : q ≤ R) :
    rowLen R q = 2 * R + 1 - q.natAbs := by
  unfold rowLen
  rcases le_total q 0 with hq | hq
  · rw [min_eq_left (by omega), max_eq_right (by omega)]
    omega
  · rw [min_eq_right (by omega), max_eq_left (by omega)]
    omega

lemma length_flatMap_eq_sum (l : List α) (f : α → List β) :
    (l.flatMap f).length = (l.map (fun a => (f a).length)).sum := by
  induction l with
  | nil => simp
  | cons x xs ih => simp [ih]

lemma sum_map_add_const (l : List Nat) (f : Nat → Nat) (c : Nat) :
    (l.map (fun i => f i + c)).sum = (l.map f).sum + c * l.length := by
  induction l with
  | nil => simp
  | cons x xs ih =>
    simp only [List.map_cons, List.sum_cons, List.length_cons, ih]
    ring

lemma grid_sum_aux (R : Nat) :
    ((List.range (2 * R + 1)).map
      (fun i : Nat => rowLen R (-(R : Int) + (i : Int)))).sum
      = 3 * R ^ 2 + 3 * R + 1 := by
  induction R with
  | zero => decide
  | succ m ih =>
    have h1 : 2 * (m + 1) + 1 = (2 * m + 2) + 1 := by ring
    rw [h1, List.range_succ_eq_map]
    have h2 : 2 * m + 2 = (2 * m + 1) + 1 := by ring
    rw [h2, List.range_succ]
    simp only [List.map_cons, List.sum_cons, List.map_map, List.map_append,
      List.sum_append, List.map_nil, List.sum_nil]
    have hcong : ∀ i ∈ List.range (2 * m + 1),
        ((fun i : Nat => rowLen (↑(m + 1)) (-(↑(m + 1) : Int) + (i : Int)))
            ∘ Nat.succ) i
          = (fun i : Nat => rowLen m (-(m : Int) + (i : Int)) + 2) i := by
      intro i hi
      rw [List.mem_range] at hi
      simp only [Function.comp_apply]
      rw [rowLen_eq (m + 1) _ (by omega) (by omega),
        rowLen_eq m _ (by omega) (by omega)]
      omega
    rw [List.map_congr_left hcong,
      sum_map_add_const (List.range (2 * m + 1))
        (fun i : Nat => rowLen m (-(m : Int) + (i : Int))) 2]
    rw [ih]
    have key : 3 * (m + 1) ^ 2 + 3 * (m + 1) + 1
        = (3 * m ^ 2 + 3 * m + 1) + (6 * m + 6) := by ring
    rw [key, List.length_range]
    generalize 3 * m ^ 2 + 3 * m + 1 = K
    rw [rowLen_eq (m + 1) _ (by omega) (by omega),
      rowLen_eq (m + 1) _ (by omega) (by omega)]
    omega

lemma grid_sum (R : Nat) :
    ((intRange (-(R : Int)) R).map (fun q => rowLen R q)).sum
      = 3 * R ^ 2 + 3 * R + 1 := by
  have hlen : ((R : Int) + 1 - -(R : Int)).toNat = 2 * R + 1 := by omega
  have hrange : intRange (-(R : Int)) R
      = (List.range (2 * R + 1)).map (fun i : Nat => -(R : Int) + (i : Int)) := by
    unfold intRange
    rw [hlen]
  rw [hrange, List.map_map]
  simpa [Function.comp] using grid_sum_aux R

lemma generateHexGrid_length_nat (R : Nat) :
    (generateHexGrid R).length = 3 * R ^ 2 + 3 * R + 1 := by
  unfold generateHexGrid
  rw [length_flatMap_eq_sum]
  have hcong : ∀ q ∈ intRange (-(R : Int)) R,
      ((intRange (max (-(R : Int)) (-q - R)) (min (R : Int) (-q + R))).map
        (fun r => createHex q r)).length = rowLen R q := by
    intro q _
    simp [intRange_length, rowLen]
  rw [List.map_congr_left hcong, grid_sum]

lemma generateHexGrid_nodup (radius : Int) : (generateHexGrid radius).Nodup := by
  unfold generateHexGrid
  rw [List.nodup_flatMap]
  constructor
  · intro q _
    refine List.Nodup.map ?_ (intRange_nodup _ _)
    intro r1 r2 h12
    simpa [createHex, Hex.mk.injEq] using h12
  · have hne : (intRange (-radius) radius).Pairwise (· ≠ ·) :=
      intRange_nodup _ _
    refine hne.imp ?_
    intro a b hab
    simp only [Function.onFun]
    intro x hxa hxb
    simp only [List.mem_map] at hxa hxb
    obtain ⟨r1, _, hx1⟩ := hxa
    obtain ⟨r2, _, hx2⟩ := hxb
    apply hab
    have : (createHex a r1).q = (createHex b r2).q := by rw [hx1, hx2]
    simpa [createHex] using this

lemma mem_generateHexGrid {radius : Int} {h : Hex}
    (hm : h ∈ generateHexGrid radius) :
    h.s = -h.q - h.r ∧ -radius ≤ h.q ∧ h.q ≤ radius ∧
      -radius ≤ h.r ∧ h.r ≤ radius ∧
      -radius ≤ h.q + h.r ∧ h.q + h.r ≤ radius := by
  simp only [generateHexGrid, List.mem_flatMap, List.mem_map, mem_intRange] at hm
  obtain ⟨q, ⟨hq1, hq2⟩, r, hr, rfl⟩ := hm
  obtain ⟨hr1, hr2⟩ := max_le_iff.mp hr.1
  obtain ⟨hr3, hr4⟩ := le_min_iff.mp hr.2
  simp only [createHex]
  refine ⟨trivial, hq1, hq2, ?_, ?_, ?_, ?_⟩ <;> omega

/-- C1: for every non-negative radius R, generateHexGrid R returns exactly
3R² + 3R + 1 coordinates, pairwise distinct, and every returned coordinate
satisfies q + r + s = 0 and max(|q|, |r|, |s|) ≤ R. -/
theorem generateHexGrid_spec (R : Nat) :
    (generateHexGrid R).length = 3 * R ^ 2 + 3 * R + 1 ∧
    (generateHexGrid R).Nodup ∧
    ∀ h ∈ generateHexGrid (R : Int),
      h.q + h.r + h.s = 0 ∧
      max (max h.q.natAbs h.r.natAbs) h.s.natAbs ≤ R := by
  refine ⟨generateHexGrid_length_nat R, generateHexGrid_nodup R, ?_⟩
  intro h hm
  obtain ⟨hs, h1, h2, h3, h4, h5, h6⟩ := mem_generateHexGrid hm
  refine ⟨by omega, ?_⟩
  simp only [max_le_iff]
  refine ⟨⟨?_, ?_⟩, ?_⟩ <;> omega

/-- C7: on the failing input -1 (a negative radius), generateHexGrid performs
no rejection at all: it returns the empty grid silently. -/
theorem generateHexGrid_neg_radius_silent : generateHexGrid (-1) = [] := by
  decide

lemma swapCons (xs : List α) (k : Nat) (c d : α) (h : xs[k]? = some c) :
    (c :: xs.set k d).Perm (d :: xs) := by
  induction xs generalizing k with
  | nil => simp at h
  | cons y t ih =>
    cases k with
    | zero =>
      rw [List.getElem?_cons_zero, Option.some.injEq] at h
      subst h
      rw [List.set_cons_zero]
      exact List.Perm.swap d y t
    | succ k =>
      rw [List.getElem?_cons_succ] at h
      rw [List.set_cons_succ]
      exact ((List.Perm.swap y c _).trans
        (List.Perm.cons y (ih k h))).trans (List.Perm.swap d y t)

lemma set_set_perm (l : List α) (i j : Nat) (a b : α)
    (ha : l[i]? = some a) (hb : l[j]? = some b) :
    ((l.set i b).set j a).Perm l := by
  induction l generalizing i j with
  | nil => simp at ha
  | cons x t ih =>
    cases i with
    | zero =>
      rw [List.getElem?_cons_zero, Option.some.injEq] at ha
      subst ha
      cases j with
      | zero =>
        rw [List.getElem?_cons_zero, Option.some.injEq] at hb
        subst hb
        rw [List.set_cons_zero, List.set_cons_zero]
      | succ j =>
        rw [List.getElem?_cons_succ] at hb
        rw [List.set_cons_zero, List.set_cons_succ]
        exact swapCons t j b x hb
    | succ i =>
      rw [List.getElem?_cons_succ] at ha
      cases j with
      | zero =>
        rw [List.getElem?_cons_zero, Option.some.injEq] at hb
        subst hb
        rw [List.set_cons_succ, List.set_cons_zero]
        exact swapCons t i a x ha
      | succ j =>
        rw [List.getElem?_cons_succ] at hb
        rw [List.set_cons_succ, List.set_cons_succ]
        exact List.Perm.cons x (ih i j ha hb)

lemma listSwap_perm (l : List α) (i j : Nat) : (listSwap l i j).Perm l := by
  unfold listSwap
  split
  · next a b ha hb => exact set_set_perm l i j a b ha hb
  · exact List.Perm.refl l

lemma shuffleFrom_perm (rand : Nat → Nat) (l : List α) (n : Nat) :
    (shuffleFrom rand l n).Perm l := by
  induction n generalizing l with
  | zero => exact List.Perm.refl l
  | succ i ih =>
    rw [shuffleFrom]
    exact (ih _).trans (listSwap_perm l (i + 1) (rand (i + 1) % (i + 2)))

/-- C9: shuffle returns a permutation of its input: the same length and the
same elements with the same multiplicities.  The source operates on a spread
copy of its argument, modelled here by shuffle being a pure function, so the
input list itself is left unmodified by construction. -/
theorem shuffle_spec [DecidableEq α] (rand : Nat → Nat) (l : List α) :
    (shuffle rand l).Perm l ∧
    (shuffle rand l).length = l.length ∧
    ∀ a : α, (shuffle rand l).count a = l.count a := by
  have h := shuffleFrom_perm rand l (l.length - 1)
  exact ⟨h, h.length_eq, fun a => h.count_eq a⟩

lemma getElem_cons_eraseIdx_perm (l : List α) (j : Nat) (p : α)
    (h : l[j]? = some p) : l.Perm (p :: l.eraseIdx j) := by
  induction l generalizing j with
  | nil => simp at h
  | cons x t ih =>
    cases j with
    | zero =>
      rw [List.getElem?_cons_zero, Option.some.injEq] at h
      subst h
      rw [List.eraseIdx_cons_zero]
    | succ j =>
      rw [List.getElem?_cons_succ] at h
      rw [List.eraseIdx_cons_succ]
      exact (List.Perm.cons x (ih j h)).trans (List.Perm.swap p x _)

lemma assignTiles_spec (rand : Nat → Nat) (mec : Planet) (hexes : List Hex) :
    ∀ (k : Nat) (deck : List Planet),
    (hexes.filter (fun h => !(isCenter h))).length ≤ deck.length →
    (assignTiles rand mec hexes k deck).1.map Tile.hex = hexes ∧
    (∀ t ∈ (assignTiles rand mec hexes k deck).1,
      isCenter t.hex = true → t.planet = some mec) ∧
    ∃ drawn : List Planet,
      ((assignTiles rand mec hexes k deck).1.filter
        (fun t => !(isCenter t.hex))).map Tile.planet = drawn.map some ∧
      deck.Perm (drawn ++ (assignTiles rand mec hexes k deck).2) := by
  induction hexes with
  | nil =>
    intro k deck _
    refine ⟨rfl, by simp [assignTiles], [], by simp [assignTiles], by simp [assignTiles]⟩
  | cons h hs ih =>
    intro k deck hlen
    cases hc : isCenter h with
    | true =>
      rw [assignTiles, if_pos hc]
      have hlen2 : (hs.filter (fun h => !(isCenter h))).length ≤ deck.length := by
        simpa [List.filter_cons, hc] using hlen
      obtain ⟨ihmap, ihcenter, drawn, ihfilter, ihperm⟩ := ih k deck hlen2
      refine ⟨?_, ?_, drawn, ?_, ?_⟩
      · simp [ihmap]
      · intro t ht
        rcases List.mem_cons.mp ht with rfl | ht'
        · intro _; rfl
        · exact ihcenter t ht'
      · simpa [List.filter_cons, hc] using ihfilter
      · exact ihperm
    | false =>
      rw [assignTiles, if_neg (by simp [hc])]
      have hlen2 : (hs.filter (fun h => !(isCenter h))).length + 1 ≤ deck.length := by
        simpa [List.filter_cons, hc] using hlen
      have hdpos : 0 < deck.length := by omega
      have hjlt : rand k % deck.length < deck.length := Nat.mod_lt _ hdpos
      have hget : deck[rand k % deck.length]? = some deck[rand k % deck.length] :=
        List.getElem?_eq_getElem hjlt
      have hlen' : (hs.filter (fun h => !(isCenter h))).length
          ≤ (deck.eraseIdx (rand k % deck.length)).length := by
        rw [List.length_eraseIdx_of_lt hjlt]
        omega
      obtain ⟨ihmap, ihcenter, drawn, ihfilter, ihperm⟩ :=
        ih (k + 1) (deck.eraseIdx (rand k % deck.length)) hlen'
      refine ⟨?_, ?_, deck[rand k % deck.length] :: drawn, ?_, ?_⟩
      · simp [ihmap]
      · intro t ht
        rcases List.mem_cons.mp ht with rfl | ht'
        · intro hcc
          rw [show (⟨h, deck[rand k % deck.length]?⟩ : Tile).hex = h from rfl,
            hc] at hcc
          cases hcc
        · exact ihcenter t ht'
      · simp only [List.filter_cons,
          show (⟨h, deck[rand k % deck.length]?⟩ : Tile).hex = h from rfl, hc,
          Bool.not_false, eq_self_iff_true, if_true, List.map_cons,
          ihfilter, hget]
      · refine (getElem_cons_eraseIdx_perm deck _ _ hget).trans ?_
        rw [List.cons_append]
        exact List.Perm.cons _ ihperm

/-- C2: for any randomness, a Nodup catalog of at least 36 records makes the
Home setup assign the fixed mecatol record to the center tile, give every
tile the hex of the generated grid in order, and give the 36 non-center
tiles pairwise distinct records drawn from the catalog without reuse. -/
theorem homeTiles_spec (rs rd : Nat → Nat) (catalog : List Planet)
    (mec : Planet) (hnd : catalog.Nodup) (hlen : 36 ≤ catalog.length) :
    (homeTiles rs rd catalog mec).map Tile.hex = generateHexGrid 3 ∧
    (∀ t ∈ homeTiles rs rd catalog mec,
      isCenter t.hex = true → t.planet = some mec) ∧
    (∀ t ∈ homeTiles rs rd catalog mec,
      isCenter t.hex = false → ∃ p, t.planet = some p ∧ p ∈ catalog) ∧
    (((homeTiles rs rd catalog mec).filter
      (fun t => !(isCenter t.hex))).map Tile.planet).Nodup := by
  unfold homeTiles
  have hdeckperm : (shuffle rs catalog).Perm catalog :=
    shuffleFrom_perm rs catalog _
  have hdecklen : (shuffle rs catalog).length = catalog.length :=
    hdeckperm.length_eq
  have hcount : ((generateHexGrid 3).filter (fun h => !(isCenter h))).length
      = 36 := by decide
  have hfl : ((generateHexGrid 3).filter (fun h => !(isCenter h))).length
      ≤ (shuffle rs catalog).length := by
    rw [hcount, hdecklen]
    exact hlen
  obtain ⟨hmap, hcenter, drawn, hfilter, hperm⟩ :=
    assignTiles_spec rd mec (generateHexGrid 3) 0 (shuffle rs catalog) hfl
  refine ⟨hmap, hcenter, ?_, ?_⟩
  · intro t ht hcf
    have htf : t ∈ (assignTiles rd mec (generateHexGrid 3) 0
        (shuffle rs catalog)).1.filter (fun t => !(isCenter t.hex)) :=
      List.mem_filter.mpr ⟨ht, by rw [hcf]; rfl⟩
    have hmm : t.planet ∈ ((assignTiles rd mec (generateHexGrid 3) 0
        (shuffle rs catalog)).1.filter
          (fun t => !(isCenter t.hex))).map Tile.planet :=
      List.mem_map_of_mem Tile.planet htf
    rw [hfilter] at hmm
    obtain ⟨p, hp, hpe⟩ := List.mem_map.mp hmm
    refine ⟨p, hpe.symm, ?_⟩
    have hpd : p ∈ shuffle rs catalog :=
      hperm.mem_iff.mpr (List.mem_append_left _ hp)
    exact hdeckperm.mem_iff.mp hpd
  · rw [hfilter]
    refine List.Nodup.map (fun a b hab => Option.some.inj hab) ?_
    have hdnodup : (shuffle rs catalog).Nodup := hdeckperm.symm.nodup hnd
    exact (hperm.nodup hdnodup).of_append_left

/-- Witness for C2: the concrete 36-record catalog satisfies the hypotheses,
and the theorem applies to it. -/
theorem homeTiles_spec_witness :
    (homeTiles (fun _ => 0) (fun _ => 0) witnessCatalog ⟨"", 1, 6⟩).map Tile.hex
      = generateHexGrid 3 :=
  (homeTiles_spec (fun _ => 0) (fun _ => 0) witnessCatalog ⟨"", 1, 6⟩
    (by decide) (by decide)).1

/-- C3: on the failing input of an empty catalog, the Home setup does not
fail: it silently produces all 37 tiles, the 36 non-center ones carrying no
planet data at all. -/
theorem homeTiles_empty_catalog_silent :
    (homeTiles (fun _ => 0) (fun _ => 0) [] ⟨"", 1, 6⟩).length = 37 ∧
    ((homeTiles (fun _ => 0) (fun _ => 0) [] ⟨"", 1, 6⟩).filter
      (fun t => !(isCenter t.hex))).all (fun t => t.planet == none) = true := by
  decide

/-- Witness for C1: the theorem applied at radius 1 and the concrete
coordinate (1, 0), discharging the membership hypothesis by evaluation. -/
theorem generateHexGrid_spec_witness :
    createHex 1 0 ∈ generateHexGrid ((1 : Nat) : Int) ∧
    ((createHex 1 0).q + (createHex 1 0).r + (createHex 1 0).s = 0 ∧
      max (max (createHex 1 0).q.natAbs (createHex 1 0).r.natAbs)
        (createHex 1 0).s.natAbs ≤ 1) :=
  ⟨by decide, (generateHexGrid_spec 1).2.2 (createHex 1 0) (by decide)⟩

/-- C8: hexToPixel computes exactly x = size * 1.5 * q and
y = size * sqrt 3 * (r + q / 2), and projecting the origin coordinate gives
the pixel offset (0, 0) for every size. -/
theorem hexToPixel_spec (h : Hex) (size : Real) :
    hexToPixel h size
      = (size * 1.5 * (h.q : Real),
          size * Real.sqrt 3 * ((h.r : Real) + (h.q : Real) / 2)) ∧
    hexToPixel (createHex 0 0) size = (0, 0) := by
  constructor
  · norm_num [hexToPixel]
  · simp [hexToPixel, createHex]

/-- C10: a tile whose name is falsy (no planet record, or an empty name)
still gets its hexagon drawn at the projected, recentered, panned position,
and contributes no text command at all; the hexagon appears in the renderGrid
trace whenever the tile is among those rendered. -/
theorem renderGrid_falsy_name (tiles : List Tile) (size : Real)
    (canvas offset : Real × Real) (t : Tile) (ht : t ∈ tiles)
    (hfalsy : nameTruthy t = false) :
    tileCmds size canvas offset t
      = [RenderCmd.hexagon ((hexToPixel t.hex size).1 + canvas.1 / 2 + offset.1)
          ((hexToPixel t.hex size).2 + canvas.2 / 2 + offset.2) size] ∧
    RenderCmd.hexagon ((hexToPixel t.hex size).1 + canvas.1 / 2 + offset.1)
        ((hexToPixel t.hex size).2 + canvas.2 / 2 + offset.2) size
      ∈ renderGrid tiles size canvas offset := by
  have h1 : tileCmds size canvas offset t
      = [RenderCmd.hexagon ((hexToPixel t.hex size).1 + canvas.1 / 2 + offset.1)
          ((hexToPixel t.hex size).2 + canvas.2 / 2 + offset.2) size] := by
    unfold tileCmds
    rw [hfalsy]
    simp
  refine ⟨h1, ?_⟩
  unfold renderGrid
  apply List.mem_cons_of_mem
  refine List.mem_flatMap.mpr ⟨t, ht, ?_⟩
  rw [h1]
  exact List.mem_singleton_self _

/-- Witness for C10: the theorem applied to a concrete planetless tile, the
membership and falsy-name hypotheses discharged by evaluation. -/
theorem renderGrid_falsy_name_witness :
    tileCmds 2 (4, 4) (0, 0) ⟨createHex 1 0, none⟩
      = [RenderCmd.hexagon
          ((hexToPixel (createHex 1 0) 2).1 + (4 : Real) / 2 + 0)
          ((hexToPixel (createHex 1 0) 2).2 + (4 : Real) / 2 + 0) 2] ∧
    RenderCmd.hexagon
        ((hexToPixel (createHex 1 0) 2).1 + (4 : Real) / 2 + 0)
        ((hexToPixel (createHex 1 0) 2).2 + (4 : Real) / 2 + 0) 2
      ∈ renderGrid [⟨createHex 1 0, none⟩] 2 (4, 4) (0, 0) :=
  renderGrid_falsy_name [⟨createHex 1 0, none⟩] 2 (4, 4) (0, 0)
    ⟨createHex 1 0, none⟩ (by decide) (by decide)

lemma handleWheel_mem (s d z : Rat) :
    0.5 ≤ handleWheel s d z ∧ handleWheel s d z ≤ 2 := by
  unfold handleWheel
  exact ⟨le_min (le_max_right _ _) (by norm_num), min_le_right _ _⟩

lemma zoomFold_mem (s : Rat) (events : List Rat) :
    ∀ z : Rat, 0.5 ≤ z → z ≤ 2 →
    0.5 ≤ events.foldl (fun z d => handleWheel s d z) z ∧
      events.foldl (fun z d => handleWheel s d z) z ≤ 2 := by
  induction events with
  | nil => intro z h1 h2; exact ⟨h1, h2⟩
  | cons e es ih =>
    intro z _ _
    rw [List.foldl_cons]
    exact ih _ (handleWheel_mem s e z).1 (handleWheel_mem s e z).2

/-- C4: starting from zoom factor 1 with the default zoom speed 1, the zoom
factor after any finite sequence of wheel events lies in [0.5, 2], and any
single wheel event lands in (hence preserves) that interval from any state. -/
theorem zoom_clamped (events : List Rat) :
    (0.5 ≤ zoomAfter 1 events ∧ zoomAfter 1 events ≤ 2) ∧
    ∀ d z : Rat, 0.5 ≤ handleWheel 1 d z ∧ handleWheel 1 d z ≤ 2 := by
  refine ⟨?_, fun d z => handleWheel_mem 1 d z⟩
  unfold zoomAfter
  exact zoomFold_mem 1 events 1 (by norm_num) (by norm_num)

lemma dragFold_offset (panSpeed : Rat) (ps : List (Rat × Rat)) :
    ∀ st : PanState, st.dragging = true →
    ((ps.foldl (fun s p => handleMouse panSpeed s (.move p.1 p.2)) st).offsetX
        = st.offsetX + dragDeltaX panSpeed st.lastX ps ∧
      (ps.foldl (fun s p => handleMouse panSpeed s (.move p.1 p.2)) st).offsetY
        = st.offsetY + dragDeltaY panSpeed st.lastY ps) := by
  induction ps with
  | nil =>
    intro st _
    simp [dragDeltaX, dragDeltaY]
  | cons p ps ih =>
    intro st hd
    rw [List.foldl_cons]
    have hstep : handleMouse panSpeed st (.move p.1 p.2)
        = { offsetX := st.offsetX + (p.1 - st.lastX) * panSpeed,
            offsetY := st.offsetY + (p.2 - st.lastY) * panSpeed,
            dragging := st.dragging, lastX := p.1, lastY := p.2 } := by
      unfold handleMouse
      dsimp only
      rw [if_pos hd]
    rw [hstep]
    obtain ⟨hx, hy⟩ := ih
      { offsetX := st.offsetX + (p.1 - st.lastX) * panSpeed,
        offsetY := st.offsetY + (p.2 - st.lastY) * panSpeed,
        dragging := st.dragging, lastX := p.1, lastY := p.2 } hd
    constructor
    · rw [hx, dragDeltaX]
      dsimp only
      ring
    · rw [hy, dragDeltaY]
      dsimp only
      ring

/-- C5: a press at (x0, y0) followed by any sequence of moves changes the pan
offset by exactly the sum of the per-move deltas, each scaled by the pan
speed; a release leaves the offset unchanged, and a new press resets the
delta baseline (the last recorded position) while leaving the offset
unchanged. -/
theorem pan_drag_spec (panSpeed : Rat) (st0 : PanState) (x0 y0 : Rat)
    (ps : List (Rat × Rat)) :
    ((ps.foldl (fun s p => handleMouse panSpeed s (.move p.1 p.2))
        (handleMouse panSpeed st0 (.down x0 y0))).offsetX
      = st0.offsetX + dragDeltaX panSpeed x0 ps ∧
      (ps.foldl (fun s p => handleMouse panSpeed s (.move p.1 p.2))
        (handleMouse panSpeed st0 (.down x0 y0))).offsetY
      = st0.offsetY + dragDeltaY panSpeed y0 ps) ∧
    ((handleMouse panSpeed st0 .up).offsetX = st0.offsetX ∧
      (handleMouse panSpeed st0 .up).offsetY = st0.offsetY) ∧
    ((handleMouse panSpeed st0 (.down x0 y0)).offsetX = st0.offsetX ∧
      (handleMouse panSpeed st0 (.down x0 y0)).offsetY = st0.offsetY ∧
      (handleMouse panSpeed st0 (.down x0 y0)).lastX = x0 ∧
      (handleMouse panSpeed st0 (.down x0 y0)).lastY = y0) := by
  refine ⟨?_, ⟨rfl, rfl⟩, rfl, rfl, rfl, rfl⟩
  exact dragFold_offset panSpeed ps (handleMouse panSpeed st0 (.down x0 y0)) rfl

lemma ticksMain_inv (k : Nat) :
    ∀ (fr : Nat) (s : HostState), s.pending = [fr] →
    (ticksMain k fr s).2.pending = [(ticksMain k fr s).1] ∧
    (ticksMain k fr s).2.listeners = s.listeners := by
  induction k with
  | zero => intro fr s h; exact ⟨h, rfl⟩
  | succ k ih =>
    intro fr s h
    rw [ticksMain]
    have hp : (tickMain fr s).2.pending = [(tickMain fr s).1] := by
      unfold tickMain rafRequest rafCancel
      simp [h]
    obtain ⟨h1, h2⟩ := ih (tickMain fr s).1 (tickMain fr s).2 hp
    exact ⟨h1, h2⟩

lemma removeAll_pending (names : List String) :
    ∀ s : HostState,
    (names.foldl (fun s n => removeListener n s) s).pending = s.pending := by
  induction names with
  | nil => intro s; rfl
  | cons n ns ih =>
    intro s
    rw [List.foldl_cons, ih]
    rfl

lemma removeAll_listeners (names : List String) :
    ∀ s : HostState,
    (names.foldl (fun s n => removeListener n s) s).listeners
      = names.foldl (fun l n => l.erase n) s.listeners := by
  induction names with
  | nil => intro s; rfl
  | cons n ns ih =>
    intro s
    rw [List.foldl_cons, List.foldl_cons, ih]
    rfl

lemma teardownMain_clean (fr : Nat) (s : HostState) (hp : s.pending = [fr])
    (hl : s.listeners = eventNames) :
    (teardownMain fr s).pending = [] ∧ (teardownMain fr s).listeners = [] := by
  unfold teardownMain
  constructor
  · rw [removeAll_pending]
    have h : (rafCancel fr s).pending = s.pending.filter (fun i => i != fr) := rfl
    rw [h, hp]
    simp
  · rw [removeAll_listeners]
    have h : (rafCancel fr s).listeners = s.listeners := rfl
    rw [h, hl]
    decide

/-- C6: the page.tsx lifecycle (mount, any number of render ticks, effect
cleanup) ends with no pending animation-frame request and no registered
listener; the part_000 draft, whose cleanup passes the render callback
instead of the stored request id to cancelAnimationFrame, removes its
listeners but leaves its frame request pending after teardown. -/
theorem teardown_spec :
    (∀ k : Nat, (runMain k).pending = [] ∧ (runMain k).listeners = []) ∧
    runPart000.pending = [1] ∧ runPart000.listeners = [] := by
  constructor
  · intro k
    obtain ⟨h1, h2⟩ := ticksMain_inv k (mountMain ⟨[], 0, []⟩).1
      (mountMain ⟨[], 0, []⟩).2 rfl
    exact teardownMain_clean _ _ h1 (h2.trans rfl)
  · exact ⟨by decide, by decide⟩
